import Mathlib

/-!
Verification development for the statiker HTTP edge server
(static file serving with path confinement, reverse proxying with
header hygiene, middleware pipeline).

The Rust sources are shallowly embedded as executable Lean functions.
Strings are manipulated through their character lists; external
collaborators (the filesystem, URI parsing, IP parsing, mime guessing,
HTML escaping, the upstream transport) are passed in as explicit
function parameters, exactly at the points where the source calls into
an external crate or performs I/O.
-/

namespace Statiker

/-! ## String primitives (models of the Rust `str` operations used) -/

/-- Model of Rust `str::split(sep)` for a single-character separator:
splits into the (possibly empty) segments between occurrences of `sep`.
`split` always yields at least one segment. -/
def splitOnChar (sep : Char) : List Char → List (List Char)
  | [] => [[]]
  | c :: rest =>
    let r := splitOnChar sep rest
    if c = sep then [] :: r
    else
      match r with
      | [] => [[c]]
      | s :: ss => (c :: s) :: ss

/-- Segments of a string split on a separator character, as strings. -/
def strSegments (sep : Char) (s : String) : List String :=
  (splitOnChar sep s.toList).map (fun l => String.mk l)

/-- Model of `str::trim_start_matches('/')`. -/
def trimLeadingSlashes (s : String) : String :=
  String.mk (s.toList.dropWhile (fun c => c = '/'))

/-- Model of `str::trim_end_matches('/')`. -/
def trimEndSlashes (s : String) : String :=
  String.mk ((s.toList.reverse.dropWhile (fun c => c = '/')).reverse)

/-- Model of `str::trim` (strip leading and trailing whitespace). -/
def rustTrim (s : String) : String :=
  String.mk (((s.toList.dropWhile Char.isWhitespace).reverse.dropWhile Char.isWhitespace).reverse)

/-- ASCII lowercasing. This models only the name normalization done by
`HeaderName::from_str`, whose accepted header names are ASCII tokens,
so ASCII lowercasing is exact there. It is NOT a model of the
full-Unicode `str::to_lowercase`, which is kept abstract (a function
parameter) wherever the source calls it. -/
def asciiLower (s : String) : String :=
  String.mk (s.toList.map Char.toLower)

/-- Replace every (non-overlapping, left to right) occurrence of `pat`
in the subject list by `rep`; model of Rust `str::replace` for a
non-empty pattern. -/
def replaceAllFuel (pat rep : List Char) : Nat → List Char → List Char
  | 0, l => l
  | _, [] => []
  | n + 1, c :: rest =>
    if !pat.isEmpty && pat.isPrefixOf (c :: rest) then
      rep ++ replaceAllFuel pat rep n (rest.drop (pat.length - 1))
    else
      c :: replaceAllFuel pat rep n rest

/-- Replace every (non-overlapping, left to right) occurrence of `pat`
in the subject by `rep`; each step consumes at least one character, so
fuel equal to the subject length suffices. -/
def replaceAll (pat rep l : List Char) : List Char :=
  replaceAllFuel pat rep l.length l

/-- Model of `v.replace("\x7bclient_ip\x7d", ip)` from `proxy_forward`. -/
def substClientIp (v ip : String) : String :=
  String.mk (replaceAll "{client_ip}".toList ip.toList v.toList)

/-! ## Path components

Model of `std::path::Path::components()` for Unix paths: empty
segments are dropped, `.` segments are normalized away except at the
beginning of a relative path, a leading `/` yields a root component,
and `..` yields a parent-directory component. -/

inductive PathComponent where
  | curDir : PathComponent
  | parentDir : PathComponent
  | rootDir : PathComponent
  | normal : String → PathComponent
deriving DecidableEq

def PathComponent.isNormal : PathComponent → Bool
  | .normal _ => true
  | _ => false

def pathComponents (s : String) : List PathComponent :=
  if s.toList = [] then []
  else
    let raw := splitOnChar '/' s.toList
    let segs := raw.filter (fun t => ¬(t = [] ∨ t = ['.']))
    let comps := segs.map (fun t =>
      if t = ['.', '.'] then PathComponent.parentDir else PathComponent.normal (String.mk t))
    if s.toList.head? = some '/' then PathComponent.rootDir :: comps
    else if raw.head? = some ['.'] then PathComponent.curDir :: comps
    else comps

/-- The `tail.split('/').any(|p| p == "..")` traversal check, shared by
`serve_static` (handlers.rs line 22) and `resolve_path_within_root`
(router.rs line 28). -/
def hasDotDot (s : String) : Bool :=
  (splitOnChar '/' s.toList).any (fun seg => seg = ['.', '.'])

/-! ## Confinement: serve_static gate and resolve_path_within_root -/

/-- The component loop of `serve_static` (handlers.rs lines 31-40):
only `Normal` components are pushed; any other component aborts. -/
def confineComponents : List PathComponent → Option (List String)
  | [] => some []
  | c :: t =>
    match c with
    | .normal s => (confineComponents t).map (fun l => s :: l)
    | _ => none

/-- The component loop of `resolve_path_within_root` (router.rs
lines 35-49): `Normal` components are pushed, `CurDir` is skipped,
anything else aborts. -/
def resolveComponents : List PathComponent → Option (List String)
  | [] => some []
  | c :: t =>
    match c with
    | .normal s => (resolveComponents t).map (fun l => s :: l)
    | .curDir => resolveComponents t
    | _ => none

/-- Outcome of the pre-filesystem part of `serve_static`. -/
inductive Gate where
  | forbidden : Gate
  | proceed : List String → Gate
deriving DecidableEq

/-- The confinement gate of `serve_static` (handlers.rs lines 21-41):
string-level `..` check on the raw tail, then the component loop on
the tail with leading slashes trimmed. -/
def staticGate (tail : String) : Gate :=
  if hasDotDot tail then .forbidden
  else
    let rel := trimLeadingSlashes tail
    if rel = "" then .proceed []
    else
      match confineComponents (pathComponents rel) with
      | some comps => .proceed comps
      | none => .forbidden

/-- `resolve_path_within_root` (router.rs lines 26-71). Filesystem
paths are component lists below an abstract root; `canon` models
`std::fs::canonicalize` (`none` when the path does not exist, so the
prefix check is skipped exactly as in the source). -/
def resolve_path_within_root (canon : List String → Option (List String))
    (root : List String) (rel_path : String) : Except Unit (List String) :=
  if hasDotDot rel_path then .error ()
  else
    let comps? := if rel_path = "" then some [] else resolveComponents (pathComponents rel_path)
    match comps? with
    | none => .error ()
    | some comps =>
      let resolved := root ++ comps
      match canon root, canon resolved with
      | some rc, some sc => if rc.isPrefixOf sc then .ok resolved else .error ()
      | _, _ => .ok resolved

end Statiker

namespace Statiker

/-! ## Header maps

`http::HeaderMap` keys are case-insensitive header names, always held
lowercased; header names are therefore modelled as lowercase strings.
`insert` replaces every existing value of the name, `remove` removes
the name entirely. -/

def headerLookup (k : String) : List (String × String) → Option String
  | [] => none
  | kv :: t => if kv.1 = k then some kv.2 else headerLookup k t

def headerInsert (hs : List (String × String)) (k v : String) : List (String × String) :=
  hs.filter (fun kv => ¬(kv.1 = k)) ++ [(k, v)]

/-! ## Directory listing renderer (handlers.rs lines 153-225) -/

/-- Three-way comparison of character lists by code point; Rust's
`str::cmp` (byte-wise lexicographic) agrees with code-point order
because UTF-8 preserves it. -/
def charListCompare : List Char → List Char → Ordering
  | [], [] => .eq
  | [], _ :: _ => .lt
  | _ :: _, [] => .gt
  | a :: as, b :: bs =>
    if a.toNat < b.toNat then .lt
    else if b.toNat < a.toNat then .gt
    else charListCompare as bs

/-- The comparator of `render_directory_listing` (handlers.rs lines
162-166): directories sort before files, within a group compare the
lowercased names. `lower` is the external `str::to_lowercase`
(full-Unicode case mapping), passed in as a collaborator like the
other external crate functions. -/
def entryCmp (lower : String → String) (a b : String × Bool) : Ordering :=
  match a.2, b.2 with
  | true, false => .lt
  | false, true => .gt
  | _, _ => charListCompare (lower a.1).toList (lower b.1).toList

def entryLe (lower : String → String) (a b : String × Bool) : Bool :=
  !(entryCmp lower a b == Ordering.gt)

/-- Insert `a` in front of the first element that is not strictly
below it. -/
def insertLe (le : α → α → Bool) (a : α) : List α → List α
  | [] => [a]
  | b :: t => if le a b then a :: b :: t else b :: insertLe le a t

/-- Stable insertion sort. Rust's `sort_by` is a stable sort, and the
output of a stable sort is uniquely determined by the comparator and
the input order, so this models `items.sort_by(..)` exactly. -/
def sortLe (le : α → α → Bool) : List α → List α
  | [] => []
  | a :: t => insertLe le a (sortLe le t)

def componentText : PathComponent → String
  | .curDir => "."
  | .parentDir => ".."
  | .rootDir => "/"
  | .normal s => s

def joinWithSlash : List String → String
  | [] => ""
  | [s] => s
  | s :: t => s ++ "/" ++ joinWithSlash t

/-- `Path::new(rel_path).parent()` rendered back to a string with
`to_string_lossy`, `""` for `None` (handlers.rs lines 183-187);
reconstructed from the components, which agrees with the source up to
separator and interior-dot normalization that `parent` leaves in the
original text. -/
def parentOfRel (s : String) : String :=
  match pathComponents s with
  | [] => ""
  | cs => joinWithSlash ((cs.dropLast).map componentText)

/-- UTF-8 bytes of a string; `String::len` in Rust is this list's
length. -/
def strBytes (s : String) : List Nat :=
  s.toUTF8.toList.map (fun b => b.toNat)

/-- `render_directory_listing` (handlers.rs lines 153-225), with the
directory enumeration passed in as `items` (the `(file_name, is_dir)`
pairs in enumeration order), `str::to_lowercase` as `lower`, and the
`html_escape` crate's `encode_text` /
`encode_double_quoted_attribute` as parameters. -/
def render_directory_listing (lower escText escAttr : String → String)
    (rel_path : String) (items : List (String × Bool)) : String :=
  let sorted := sortLe (entryLe lower) items
  let title := if rel_path = "" then "/" else "/" ++ rel_path
  let htmlHead :=
    "<!doctype html>\n<html><head><meta charset=\x22utf-8\x22><title>Index of "
    ++ escText title
    ++ "</title><style>body \x7b font-family: monospace; margin: 20px; \x7d h1 \x7b color: #333; \x7d ul \x7b list-style: none; padding: 0; \x7d li \x7b padding: 5px 0; \x7d a \x7b color: #0066cc; text-decoration: none; \x7d a:hover \x7b text-decoration: underline; \x7d hr \x7b margin-top: 20px; border: none; border-top: 1px solid #ccc; \x7d</style></head><body><h1>Index of "
    ++ escText title
    ++ "</h1><ul>"
  let parentPart :=
    if rel_path = "" then ""
    else
      let p0 := parentOfRel rel_path
      let p := if p0 = "." then "" else p0
      "<li><a href=\x22" ++ escAttr ("/" ++ p) ++ "\x22>..</a></li>"
  let entryLi := fun (e : String × Bool) =>
    let url0 :=
      if rel_path = "" then "/" ++ e.1
      else "/" ++ trimEndSlashes rel_path ++ "/" ++ e.1
    let url := if e.2 then url0 ++ "/" else url0
    "<li><a href=\x22" ++ escAttr url ++ "\x22>" ++ escText e.1 ++ "</a></li>"
  let entriesPart := sorted.foldl (fun acc e => acc ++ entryLi e) ""
  htmlHead ++ parentPart ++ entriesPart ++ "</ul><hr><address>statiker</address></body></html>"

/-! ## Static content responder (handlers.rs lines 11-150) -/

inductive Method where
  | get : Method
  | head : Method
  | post : Method
  | other : Method
deriving DecidableEq

/-- What the filesystem holds at a path (sequential model: the bytes
seen by `tokio::fs::read` are the bytes whose length
`tokio::fs::metadata` reported, so the racy 500 branch of the source
is unreachable here). -/
inductive FsEntry where
  | file : List Nat → FsEntry
  | dir : FsEntry
  | absent : FsEntry

structure HttpResponse where
  status : Nat
  headers : List (String × String)
  body : List Nat
deriving DecidableEq

def forbiddenResponse : HttpResponse := ⟨403, [], []⟩

def notFoundResponse : HttpResponse := ⟨404, [], []⟩

def methodNotAllowedResponse : HttpResponse := ⟨405, [], []⟩

/-- The 200 response for a regular file (handlers.rs lines 45-64):
content type guessed from the path, `Content-Length` from the
metadata, body empty for HEAD. `HeaderValue::from_str` cannot fail on
a rendered mime type or a decimal numeral, so both inserts always
happen. -/
def fileResponse (mimeStr : String) (method : Method) (bytes : List Nat) : HttpResponse :=
  { status := 200
    headers := [("content-type", mimeStr), ("content-length", toString bytes.length)]
    body := if method = .head then [] else bytes }

/-- The 200 response for a rendered directory listing (handlers.rs
lines 101-113 and 124-136). -/
def htmlResponse (method : Method) (html : String) : HttpResponse :=
  { status := 200
    headers := [("content-type", "text/html; charset=utf-8"),
                ("content-length", toString (strBytes html).length)]
    body := if method = .head then [] else strBytes html }

/-- External collaborators of `serve_static`: metadata/read, read_dir,
`mime_guess`, `str::to_lowercase`, `html_escape`. Filesystem paths are
component lists relative to the confinement root. -/
structure StaticEnv where
  fs : List String → FsEntry
  dirList : List String → List (String × Bool)
  mimeGuess : List String → String
  lower : String → String
  escText : String → String
  escAttr : String → String

structure ServerCfg where
  index : String
  auto_index : Bool

/-- The filesystem part of `serve_static` (handlers.rs lines 44-149),
entered with the confined component path and the trimmed relative
request path. -/
def serveFsPath (env : StaticEnv) (cfg : ServerCfg) (method : Method)
    (comps : List String) (rel : String) : HttpResponse :=
  match env.fs comps with
  | .file bytes => fileResponse (env.mimeGuess comps) method bytes
  | .dir =>
    let indexPath := comps ++ [cfg.index]
    match env.fs indexPath with
    | .file bytes => fileResponse (env.mimeGuess indexPath) method bytes
    | _ =>
      if cfg.auto_index then
        htmlResponse method
          (render_directory_listing env.lower env.escText env.escAttr rel (env.dirList comps))
      else notFoundResponse
  | .absent => notFoundResponse

/-- `serve_static` (handlers.rs lines 12-150): method gate, traversal
gate, then the filesystem classification. -/
def serve_static (env : StaticEnv) (cfg : ServerCfg) (method : Method)
    (tail : String) : HttpResponse :=
  match method with
  | .get | .head =>
    match staticGate tail with
    | .forbidden => forbiddenResponse
    | .proceed comps => serveFsPath env cfg method comps (trimLeadingSlashes tail)
  | _ => methodNotAllowedResponse

end Statiker

namespace Statiker

/-! ## Reverse proxy forwarder (proxy.rs) -/

/-- `config::Proxy`: upstream url, timeout (`Duration` modelled in
nanoseconds, `Duration::ZERO` = 0), and the `add_headers` map
(`HashMap` entries listed in iteration order). -/
structure ProxyCfg where
  url : String
  timeout : Nat
  add_headers : List (String × String)

structure ProxyState where
  target : String
  timeout : Nat
  add_headers : List (String × String)

def durationFromSecs (n : Nat) : Nat := n * 1000000000

/-- `ProxyState::new` (proxy.rs lines 25-40). `validName` models the
`Ok` test of `HeaderName::from_str`, which also lowercases accepted
names. -/
def ProxyState.new (validName : String → Bool) (p : ProxyCfg) : ProxyState :=
  { target := trimEndSlashes p.url
    timeout := if p.timeout = 0 then durationFromSecs 5 else p.timeout
    add_headers := p.add_headers.filterMap (fun kv =>
      if validName kv.1 then some (asciiLower kv.1, kv.2) else none) }

/-- An inbound request as `proxy_forward` sees it: header map, query
string of the uri, and the peer `SocketAddr` from the request
extensions rendered as `a.ip().to_string()`. Header values are
modelled as strings, so the `to_str().ok()` step always succeeds. -/
structure PRequest where
  headers : List (String × String)
  query : Option String
  peer : Option String

/-- `client_ip` (proxy.rs lines 120-127): the whole
`x-forwarded-for` value when the header is present, else the peer
address. -/
def client_ip (req : PRequest) : Option String :=
  match headerLookup "x-forwarded-for" req.headers with
  | some v => some v
  | none => req.peer

def resolvedClientIp (req : PRequest) : String :=
  (client_ip req).getD "unknown"

/-- The byte test of `HeaderValue::from_str`, lifted to characters
(identical on ASCII values). -/
def validHeaderValueChar (c : Char) : Bool :=
  (32 ≤ c.toNat && c.toNat ≠ 127) || c.toNat = 9

def isValidHeaderValue (s : String) : Bool :=
  s.toList.all validHeaderValueChar

/-- The configured-header loop of `proxy_forward` (proxy.rs lines
70-77): substitute the client ip into each template and insert it,
silently skipping values `HeaderValue::from_str` rejects. -/
def applyAddHeaders (adds : List (String × String)) (clientIp : String)
    (headers : List (String × String)) : List (String × String) :=
  adds.foldl (fun hs kv =>
    let vv := substClientIp kv.2 clientIp
    if isValidHeaderValue vv then headerInsert hs kv.1 vv else hs) headers

def hopByHopHeaderNames : List String :=
  ["connection", "proxy-connection", "keep-alive", "transfer-encoding",
   "upgrade", "te", "trailers"]

/-- `strip_hop_by_hop` (proxy.rs lines 103-117): remove each of the
seven hop-by-hop names (all valid header names, so `from_str` always
succeeds) from the map. -/
def strip_hop_by_hop (headers : List (String × String)) : List (String × String) :=
  headers.filter (fun kv => ¬(kv.1 ∈ hopByHopHeaderNames))

/-- proxy.rs lines 59-63. -/
def buildUpstreamUri (target tail : String) (query : Option String) : String :=
  target ++ "/" ++ tail ++
    (match query with
     | some q => "?" ++ q
     | none => "")

/-- The header map of the outbound upstream request: configured
headers applied, then hop-by-hop names stripped (proxy.rs lines
70-80). -/
def outboundRequestHeaders (ps : ProxyState) (req : PRequest) : List (String × String) :=
  strip_hop_by_hop (applyAddHeaders ps.add_headers (resolvedClientIp req) req.headers)

structure UpstreamResponse where
  status : Nat
  headers : List (String × String)

def badGatewayResponse : HttpResponse := ⟨502, [], []⟩

/-- `proxy_forward` (proxy.rs lines 58-100). `uriOk` models the `Ok`
test of `Uri::from_str`; `attempt` models the single awaited
`tokio::time::timeout(ps.timeout, HTTP_CLIENT.request(req))` given the
effective timeout and the outbound header map: `none` is timeout
expiry, `some none` a transport failure, `some (some u)` the upstream
response. It is consulted exactly once — a failure is surfaced as 502
with no retry. On success the upstream status is copied and the
upstream headers are sanitized; the body is streamed through unchanged
and left out of the model. -/
def proxy_forward (uriOk : String → Bool)
    (attempt : Nat → List (String × String) → Option (Option UpstreamResponse))
    (ps : ProxyState) (tail : String) (req : PRequest) : HttpResponse :=
  let upstream := buildUpstreamUri ps.target tail req.query
  if uriOk upstream then
    match attempt ps.timeout (outboundRequestHeaders ps req) with
    | some (some u) => { status := u.status, headers := strip_hop_by_hop u.headers, body := [] }
    | _ => badGatewayResponse
  else badGatewayResponse

/-! ## Middleware (middleware.rs, utils.rs) -/

inductive IpAddr where
  | v4 : Nat → Nat → Nat → Nat → IpAddr
  | v6 : List Nat → IpAddr
deriving DecidableEq

/-- The key resolution of `rate_limit_mw` (middleware.rs lines 18-26):
first comma entry of `x-forwarded-for` trimmed and parsed as an ip
(`parseIp` models `str::parse::<IpAddr>().ok()`), else the peer
address from the extensions, else the `0.0.0.0` sentinel. -/
def rateLimitKey (parseIp : String → Option IpAddr)
    (headers : List (String × String)) (peer : Option IpAddr) : IpAddr :=
  let fromHeader :=
    (headerLookup "x-forwarded-for" headers).bind (fun s =>
      match strSegments ',' s with
      | [] => none
      | seg :: _ => parseIp (rustTrim seg))
  match fromHeader with
  | some ip => ip
  | none =>
    match peer with
    | some p => p
    | none => .v4 0 0 0 0

def rateLimitedResponse : HttpResponse := ⟨429, [], strBytes "rate limit"⟩

/-- `rate_limit_mw` (middleware.rs lines 15-34). `check` models
`limiter.check_key` with `true` for `Ok` (admit); `next` models
`next.run(req)`. -/
def rate_limit_mw (limiter : Option (IpAddr → Bool)) (parseIp : String → Option IpAddr)
    (headers : List (String × String)) (peer : Option IpAddr)
    (next : Unit → HttpResponse) : HttpResponse :=
  match limiter with
  | some check =>
    if check (rateLimitKey parseIp headers peer) then next () else rateLimitedResponse
  | none => next ()

def assetExts : List String :=
  ["css", "js", "mjs", "map", "png", "jpg", "jpeg", "gif", "webp", "svg", "ico",
   "ttf", "otf", "woff", "woff2", "mp4", "webm", "mp3"]

/-- `is_asset_path` (utils.rs lines 1-11): `p.rsplit('.').next()` is
the last `.`-separated segment and always exists, so the
`unwrap_or(false)` branch is unreachable. -/
def is_asset_path (p : String) : Bool :=
  match (strSegments '.' p).getLast? with
  | some e => assetExts.contains e
  | none => false

structure CacheCfg where
  enabled : Bool
  max_age : Nat

/-- `cache_control_mw` (middleware.rs lines 37-48) applied to the
response `res` produced by `next.run(req)` for request path `path`;
`Duration::as_secs` truncates nanoseconds to seconds, and
`HeaderValue::from_str` never fails on this format string. -/
def cache_control_mw (cache : CacheCfg) (path : String) (res : HttpResponse) : HttpResponse :=
  if cache.enabled && is_asset_path path then
    let secs := cache.max_age / 1000000000
    { res with
      headers := headerInsert res.headers "cache-control"
        ("public, max-age=" ++ toString secs ++ ", immutable") }
  else res

/-! ## Route table (router.rs lines 112-137) -/

structure RouteCfg where
  path : String
  serve : Option String
  proxy : Option ProxyCfg

inductive RouteMode where
  | static : RouteMode
  | proxy : ProxyState → RouteMode

/-- What one declared route contributes to the router: the
`serve: static` arm wins and mounts a static route; otherwise a
configured proxy mounts a forwarder built by `ProxyState::new`
(router.rs lines 116-130); a route with neither contributes
nothing. -/
def routeEntry (validName : String → Bool) (r : RouteCfg) : Option (String × RouteMode) :=
  if r.serve = some "static" then some (r.path, .static)
  else
    match r.proxy with
    | some p => some (r.path, .proxy (ProxyState.new validName p))
    | none => none

/-- router.rs lines 119-121: the warning for a route declaring both. -/
def routeWarns (r : RouteCfg) : Bool :=
  r.serve == some "static" && r.proxy.isSome

/-- `build_router` (router.rs lines 112-137): mounted routes in
declaration order plus the emitted warnings; when no route mounted
anything, the default static route at `/` (the SPA fallback service of
lines 139-151 is outside the route table proper). -/
def build_router (validName : String → Bool) (routes : List RouteCfg) :
    List (String × RouteMode) × List String :=
  let entries := routes.filterMap (routeEntry validName)
  let warnings := (routes.filter (fun r => routeWarns r)).map (fun r => r.path)
  (if entries.isEmpty then [("/", RouteMode.static)] else entries, warnings)

end Statiker

namespace Statiker

/-- The success condition of the canonicalization defense-in-depth
check in `resolve_path_within_root` (router.rs lines 54-62): vacuous
unless both paths canonicalize. -/
def canonAdmits (canon : List String → Option (List String))
    (root resolved : List String) : Prop :=
  match canon root, canon resolved with
  | some rc, some sc => rc.isPrefixOf sc = true
  | _, _ => True

/-- A tiny concrete filesystem for evaluating the static responder:
one regular file `a.txt` holding two bytes. -/
def witnessEnv : StaticEnv :=
  { fs := fun p => if p = ["a.txt"] then .file [104, 105] else .absent
    dirList := fun _ => []
    mimeGuess := fun _ => "text/plain"
    lower := id
    escText := id
    escAttr := id }

/-! ## Helper lemmas -/

theorem confineComponents_eq_none_iff (cs : List PathComponent) :
    confineComponents cs = none ↔ ∃ c ∈ cs, c.isNormal = false := by
  induction cs with
  | nil => simp [confineComponents]
  | cons c t ih =>
    cases c with
    | normal s =>
      simp only [confineComponents, List.mem_cons]
      constructor
      · intro h
        rcases ih.mp (by
          cases hct : confineComponents t with
          | none => rfl
          | some l => simp [hct] at h) with ⟨d, hd, hdn⟩
        exact ⟨d, Or.inr hd, hdn⟩
      · rintro ⟨d, (rfl | hd), hdn⟩
        · simp [PathComponent.isNormal] at hdn
        · rw [(ih.mpr ⟨d, hd, hdn⟩)]
          rfl
    | curDir =>
      simp [confineComponents, PathComponent.isNormal]
    | parentDir =>
      simp [confineComponents, PathComponent.isNormal]
    | rootDir =>
      simp [confineComponents, PathComponent.isNormal]

theorem resolveComponents_map_normal (names : List String) :
    resolveComponents (names.map PathComponent.normal) = some names := by
  induction names with
  | nil => rfl
  | cons n t ih => simp [resolveComponents, ih]

theorem serveFsPath_ne_forbidden (env : StaticEnv) (cfg : ServerCfg) (method : Method)
    (comps : List String) (rel : String) :
    serveFsPath env cfg method comps rel ≠ forbiddenResponse := by
  unfold serveFsPath
  rcases hfs : env.fs comps with bytes | _ | _
  · simp [hfs, fileResponse, forbiddenResponse]
  · rcases hidx : env.fs (comps ++ [cfg.index]) with b2 | _ | _ <;>
      rcases hai : cfg.auto_index <;>
      simp [hfs, hidx, hai, fileResponse, htmlResponse, notFoundResponse, forbiddenResponse]
  · simp [hfs, notFoundResponse, forbiddenResponse]

theorem dropWhile_slash_hasDotDot (l : List Char) :
    (splitOnChar '/' (l.dropWhile (fun c => c = '/'))).any (fun seg => seg = ['.', '.'])
      = (splitOnChar '/' l).any (fun seg => seg = ['.', '.']) := by
  induction l with
  | nil => rfl
  | cons c t ih =>
    by_cases hc : c = '/'
    · subst hc
      have h1 : List.dropWhile (fun c => decide (c = '/')) ('/' :: t)
          = List.dropWhile (fun c => decide (c = '/')) t := by simp
      rw [h1, ih]
      simp [splitOnChar]
    · simp [List.dropWhile_cons, hc]

theorem hasDotDot_trimLeadingSlashes (s : String) :
    hasDotDot (trimLeadingSlashes s) = hasDotDot s := by
  unfold hasDotDot trimLeadingSlashes
  show (splitOnChar '/' (s.toList.dropWhile (fun c => c = '/'))).any _ = _
  exact dropWhile_slash_hasDotDot s.toList

/-! ## C1 -/

/-- C1: for every relative path (tail) containing a `..` segment when
split on `/`, the confinement logic rejects it: `serve_static` returns
403 for GET/HEAD without reading the filesystem (the same response for
every filesystem), and `resolve_path_within_root` returns an error for
every canonicalization behavior. -/
theorem confinement_rejects_dotdot (tail : String) (h : hasDotDot tail = true) :
    (∀ (env : StaticEnv) (cfg : ServerCfg) (method : Method),
      (method = Method.get ∨ method = Method.head) →
      serve_static env cfg method tail = forbiddenResponse)
    ∧ (∀ (canon : List String → Option (List String)) (root : List String),
        resolve_path_within_root canon root tail = .error ()) := by
  constructor
  · intro env cfg method hm
    rcases hm with h1 | h1 <;> subst h1 <;> simp [serve_static, staticGate, h]
  · intro canon root
    simp [resolve_path_within_root, h]

theorem confinement_rejects_dotdot_witness :
    hasDotDot "../etc/passwd" = true
    ∧ serve_static ⟨fun _ => .absent, fun _ => [], fun _ => "", id, id, id⟩
        ⟨"index.html", false⟩ .get "../etc/passwd" = forbiddenResponse
    ∧ resolve_path_within_root (fun _ => none) ["root"] "../etc/passwd" = .error () := by
  refine ⟨by decide, ?_, ?_⟩
  · exact (confinement_rejects_dotdot "../etc/passwd" (by decide)).1 _ _ _ (Or.inl rfl)
  · exact (confinement_rejects_dotdot "../etc/passwd" (by decide)).2 _ _

end Statiker

namespace Statiker

/-! ## C4 -/

/-- C4: for every confined path resolving to an existing regular file,
the 200 response of `serve_static` carries a `content-length` header
equal to the file's exact byte length; on GET the body is the file's
bytes, on HEAD the body is empty with the same `content-length`
header present. -/
theorem serve_static_file_content_length (env : StaticEnv) (cfg : ServerCfg)
    (method : Method) (tail : String) (comps : List String) (bytes : List Nat)
    (hm : method = Method.get ∨ method = Method.head)
    (hgate : staticGate tail = .proceed comps)
    (hfile : env.fs comps = .file bytes) :
    (serve_static env cfg method tail).status = 200
    ∧ ("content-length", toString bytes.length) ∈ (serve_static env cfg method tail).headers
    ∧ (method = Method.get → (serve_static env cfg method tail).body = bytes)
    ∧ (method = Method.head → (serve_static env cfg method tail).body = []) := by
  rcases hm with h1 | h1 <;> subst h1 <;>
    simp [serve_static, hgate, serveFsPath, hfile, fileResponse]

theorem serve_static_file_content_length_witness :
    (serve_static witnessEnv ⟨"index.html", false⟩ .get "a.txt").status = 200
    ∧ ("content-length", "2") ∈ (serve_static witnessEnv ⟨"index.html", false⟩ .get "a.txt").headers
    ∧ (serve_static witnessEnv ⟨"index.html", false⟩ .get "a.txt").body = [104, 105]
    ∧ (serve_static witnessEnv ⟨"index.html", false⟩ .head "a.txt").body = [] := by
  have hg := serve_static_file_content_length witnessEnv ⟨"index.html", false⟩ .get "a.txt"
    ["a.txt"] [104, 105] (Or.inl rfl) (by decide) rfl
  have hh := serve_static_file_content_length witnessEnv ⟨"index.html", false⟩ .head "a.txt"
    ["a.txt"] [104, 105] (Or.inr rfl) (by decide) rfl
  exact ⟨hg.1, hg.2.1, hg.2.2.1 rfl, hh.2.2.2 rfl⟩

end Statiker

namespace Statiker

/-! ## C10 -/

/-- C10 counterexample: the tail `/index.html` has a root component
and no `..` segment, yet `serve_static` does not return 403 — the
leading slash is trimmed before the component check, so it answers 404
on an empty filesystem — while `resolve_path_within_root` does reject
the same path; the static layer is not stricter on it. -/
theorem static_rootdir_counterexample :
    PathComponent.rootDir ∈ pathComponents "/index.html"
    ∧ hasDotDot "/index.html" = false
    ∧ serve_static witnessEnv ⟨"index.html", false⟩ .get "/index.html" = notFoundResponse
    ∧ notFoundResponse ≠ forbiddenResponse
    ∧ resolve_path_within_root (fun _ => none) ["root"] "/index.html" = .error () := by
  exact ⟨by decide, by decide, by decide, by decide, rfl⟩

/-- C10 (amended): for GET/HEAD tails without a `..` segment,
`serve_static` returns 403 exactly when the tail stripped of leading
slashes has a non-normal path component (so only a leading
current-directory marker can trigger it: root components are trimmed
away rather than rejected); on a leading `./` path with otherwise
normal components the resolver instead skips the marker and succeeds,
so there the static layer is strictly stricter than the resolver. -/
theorem static_forbidden_iff_nonnormal (env : StaticEnv) (cfg : ServerCfg)
    (method : Method) (tail : String)
    (hm : method = Method.get ∨ method = Method.head)
    (hdd : hasDotDot tail = false) :
    (serve_static env cfg method tail = forbiddenResponse
      ↔ ∃ c ∈ pathComponents (trimLeadingSlashes tail), c.isNormal = false)
    ∧ (∀ (names root : List String) (canon : List String → Option (List String)),
        pathComponents (trimLeadingSlashes tail)
          = PathComponent.curDir :: names.map PathComponent.normal →
        canonAdmits canon root (root ++ names) →
        resolve_path_within_root canon root (trimLeadingSlashes tail)
          = .ok (root ++ names)) := by
  have hs : serve_static env cfg method tail
      = (match staticGate tail with
         | .forbidden => forbiddenResponse
         | .proceed comps => serveFsPath env cfg method comps (trimLeadingSlashes tail)) := by
    rcases hm with h1 | h1 <;> (subst h1; rfl)
  constructor
  · rw [hs]
    by_cases hrel : trimLeadingSlashes tail = ""
    · have hg : staticGate tail = .proceed [] := by simp [staticGate, hdd, hrel]
      rw [hg]
      constructor
      · intro hserve
        exact absurd hserve (serveFsPath_ne_forbidden env cfg method [] _)
      · rintro ⟨c, hc, _⟩
        rw [hrel] at hc
        simp [pathComponents] at hc
    · cases hC : confineComponents (pathComponents (trimLeadingSlashes tail)) with
      | none =>
        have hg : staticGate tail = .forbidden := by simp [staticGate, hdd, hrel, hC]
        rw [hg]
        simpa using (confineComponents_eq_none_iff _).mp hC
      | some comps =>
        have hg : staticGate tail = .proceed comps := by simp [staticGate, hdd, hrel, hC]
        rw [hg]
        constructor
        · intro hserve
          exact absurd hserve (serveFsPath_ne_forbidden env cfg method comps _)
        · intro hex
          have hnone := (confineComponents_eq_none_iff _).mpr hex
          rw [hC] at hnone
          exact Option.noConfusion hnone
  · intro names root canon hcomps hadmit
    have hdd2 : hasDotDot (trimLeadingSlashes tail) = false := by
      rw [hasDotDot_trimLeadingSlashes]
      exact hdd
    have hrel : ¬(trimLeadingSlashes tail = "") := by
      intro h0
      rw [h0] at hcomps
      simp [pathComponents] at hcomps
    have hres : resolveComponents (pathComponents (trimLeadingSlashes tail)) = some names := by
      rw [hcomps]
      simp [resolveComponents, resolveComponents_map_normal]
    unfold resolve_path_within_root
    rw [hdd2]
    simp only [Bool.false_eq_true, if_false, hrel, ite_false, hres]
    unfold canonAdmits at hadmit
    rcases hcr : canon root with _ | rc <;>
      rcases hcs : canon (root ++ names) with _ | sc <;>
      rw [hcr, hcs] at hadmit <;>
      simp [hcr, hcs, hadmit]

theorem static_forbidden_iff_nonnormal_witness :
    serve_static witnessEnv ⟨"index.html", false⟩ .get "./a.txt" = forbiddenResponse
    ∧ resolve_path_within_root (fun _ => none) ["root"] "./a.txt" = .ok ["root", "a.txt"] := by
  have h := static_forbidden_iff_nonnormal witnessEnv ⟨"index.html", false⟩ .get "./a.txt"
    (Or.inl rfl) (by decide)
  refine ⟨h.1.mpr ⟨PathComponent.curDir, by decide, rfl⟩, ?_⟩
  exact h.2 ["a.txt"] ["root"] (fun _ => none) (by decide) trivial

end Statiker

namespace Statiker

/-! ## Sorting lemmas for the directory listing -/

theorem charListCompare_swap (a : List Char) : ∀ b : List Char,
    charListCompare b a = (charListCompare a b).swap := by
  induction a with
  | nil => intro b; cases b <;> rfl
  | cons x xs ih =>
    intro b
    cases b with
    | nil => rfl
    | cons y ys =>
      unfold charListCompare
      split_ifs <;> first | rfl | omega | exact ih ys

theorem charListCompare_eq : ∀ {a b : List Char}, charListCompare a b = .eq → a = b := by
  intro a
  induction a with
  | nil =>
    intro b h
    cases b with
    | nil => rfl
    | cons y ys => exact Ordering.noConfusion h
  | cons x xs ih =>
    intro b h
    cases b with
    | nil => exact Ordering.noConfusion h
    | cons y ys =>
      unfold charListCompare at h
      by_cases h1 : x.toNat < y.toNat
      · rw [if_pos h1] at h
        exact Ordering.noConfusion h
      · by_cases h2 : y.toNat < x.toNat
        · rw [if_neg h1, if_pos h2] at h
          exact Ordering.noConfusion h
        · rw [if_neg h1, if_neg h2] at h
          have hxy : x = y := Char.eq_of_val_eq (UInt32.ext (by simp only [Char.toNat] at h1 h2; omega))
          rw [hxy, ih h]

theorem charListCompare_le_trans : ∀ (a b c : List Char),
    charListCompare a b ≠ .gt → charListCompare b c ≠ .gt → charListCompare a c ≠ .gt := by
  intro a
  induction a with
  | nil =>
    intro b c _ _
    cases c with
    | nil => exact fun hcon => Ordering.noConfusion hcon
    | cons z zs => exact fun hcon => Ordering.noConfusion hcon
  | cons x xs ih =>
    intro b c h1 h2
    cases b with
    | nil => exact absurd rfl h1
    | cons y ys =>
      cases c with
      | nil => exact absurd rfl h2
      | cons z zs =>
        unfold charListCompare at h1 h2 ⊢
        split_ifs at h1 h2 ⊢ <;>
          first
          | exact absurd rfl h1
          | exact absurd rfl h2
          | omega
          | exact fun hcon => Ordering.noConfusion hcon
          | exact ih ys zs h1 h2

theorem charListCompare_le_total (u v : List Char) :
    charListCompare u v ≠ .gt ∨ charListCompare v u ≠ .gt := by
  by_cases h : charListCompare u v = .gt
  · right
    rw [charListCompare_swap u v, h]
    decide
  · left
    exact h

theorem entryLe_iff (lower : String → String) (a b : String × Bool) :
    entryLe lower a b = true ↔ entryCmp lower a b ≠ .gt := by
  cases h : entryCmp lower a b <;> simp [entryLe, h] <;> decide

theorem entryCmp_swap (lower : String → String) (a b : String × Bool) :
    entryCmp lower b a = (entryCmp lower a b).swap := by
  rcases a with ⟨na, da⟩
  rcases b with ⟨nb, db⟩
  cases da <;> cases db <;> simp [entryCmp] <;>
    first
    | rfl
    | exact charListCompare_swap _ _

theorem entryLe_total (lower : String → String) (a b : String × Bool) :
    entryLe lower a b = true ∨ entryLe lower b a = true := by
  rw [entryLe_iff, entryLe_iff]
  by_cases h : entryCmp lower a b = .gt
  · right
    rw [entryCmp_swap lower a b, h]
    decide
  · left
    exact h

theorem entryLe_trans (lower : String → String) (a b c : String × Bool)
    (h1 : entryLe lower a b = true) (h2 : entryLe lower b c = true) :
    entryLe lower a c = true := by
  rw [entryLe_iff] at h1 h2 ⊢
  rcases a with ⟨na, da⟩
  rcases b with ⟨nb, db⟩
  rcases c with ⟨nc, dc⟩
  unfold entryCmp at h1 h2 ⊢
  cases da <;> cases db <;> cases dc <;>
    first
    | exact charListCompare_le_trans _ _ _ h1 h2
    | exact absurd rfl h1
    | exact absurd rfl h2
    | exact fun hcon => Ordering.noConfusion hcon

theorem entryCmp_eq_components (lower : String → String) (a b : String × Bool)
    (h : entryCmp lower a b = .eq) :
    a.2 = b.2 ∧ lower a.1 = lower b.1 := by
  rcases a with ⟨na, da⟩
  rcases b with ⟨nb, db⟩
  cases da <;> cases db <;> simp [entryCmp] at h ⊢ <;>
    exact String.ext (charListCompare_eq h)

theorem insertLe_perm (le : α → α → Bool) (a : α) (l : List α) :
    List.Perm (insertLe le a l) (a :: l) := by
  induction l with
  | nil => exact List.Perm.refl _
  | cons b t ih =>
    unfold insertLe
    by_cases h : le a b = true
    · rw [if_pos h]
    · rw [if_neg h]
      exact (ih.cons b).trans (List.Perm.swap a b t)

theorem sortLe_perm (le : α → α → Bool) (l : List α) : List.Perm (sortLe le l) l := by
  induction l with
  | nil => exact List.Perm.refl _
  | cons a t ih => exact (insertLe_perm le a (sortLe le t)).trans (ih.cons a)

theorem insertLe_pairwise (le : α → α → Bool)
    (htr : ∀ x y z, le x y = true → le y z = true → le x z = true)
    (hto : ∀ x y, le x y = true ∨ le y x = true)
    (a : α) (l : List α) (h : l.Pairwise (fun x y => le x y = true)) :
    (insertLe le a l).Pairwise (fun x y => le x y = true) := by
  induction l with
  | nil => simp [insertLe]
  | cons b t ih =>
    rcases List.pairwise_cons.mp h with ⟨hb, ht⟩
    unfold insertLe
    by_cases hab : le a b = true
    · rw [if_pos hab]
      refine List.pairwise_cons.mpr ⟨?_, h⟩
      intro y hy
      rcases List.mem_cons.mp hy with rfl | hyt
      · exact hab
      · exact htr a b y hab (hb y hyt)
    · rw [if_neg hab]
      refine List.pairwise_cons.mpr ⟨?_, ih ht⟩
      intro y hy
      rcases List.mem_cons.mp ((insertLe_perm le a t).mem_iff.mp hy) with heq | hyt
      · rw [heq]
        rcases hto a b with h' | h'
        · exact absurd h' hab
        · exact h'
      · exact hb y hyt

theorem sortLe_pairwise (le : α → α → Bool)
    (htr : ∀ x y z, le x y = true → le y z = true → le x z = true)
    (hto : ∀ x y, le x y = true ∨ le y x = true)
    (l : List α) : (sortLe le l).Pairwise (fun x y => le x y = true) := by
  induction l with
  | nil => simp [sortLe]
  | cons a t ih => exact insertLe_pairwise le htr hto a _ ih

theorem sorted_perm_eq (le : α → α → Bool) (l₁ : List α) : ∀ (l₂ : List α),
    List.Perm l₁ l₂ →
    l₁.Pairwise (fun x y => le x y = true) →
    l₂.Pairwise (fun x y => le x y = true) →
    (∀ a ∈ l₁, ∀ b ∈ l₁, le a b = true → le b a = true → a = b) →
    l₁ = l₂ := by
  induction l₁ with
  | nil =>
    intro l₂ hp _ _ _
    exact (List.Perm.eq_nil hp.symm).symm
  | cons a t₁ ih =>
    intro l₂ hp hs₁ hs₂ hanti
    cases l₂ with
    | nil => exact absurd hp.eq_nil (by simp)
    | cons b t₂ =>
      have hab : a = b := by
        by_cases h : a = b
        · exact h
        · have ha2 : a ∈ b :: t₂ := hp.mem_iff.mp (List.mem_cons_self a t₁)
          have hb1 : b ∈ a :: t₁ := hp.mem_iff.mpr (List.mem_cons_self b t₂)
          have hat2 : a ∈ t₂ := by
            rcases List.mem_cons.mp ha2 with h' | h'
            · exact absurd h' h
            · exact h'
          have hbt1 : b ∈ t₁ := by
            rcases List.mem_cons.mp hb1 with h' | h'
            · exact absurd h'.symm h
            · exact h'
          have h1 : le a b = true := (List.pairwise_cons.mp hs₁).1 b hbt1
          have h2 : le b a = true := (List.pairwise_cons.mp hs₂).1 a hat2
          exact hanti a (List.mem_cons_self a t₁) b hb1 h1 h2
      subst hab
      have hrest := ih t₂ hp.cons_inv (List.pairwise_cons.mp hs₁).2
        (List.pairwise_cons.mp hs₂).2
        (fun x hx y hy => hanti x (List.mem_cons_of_mem a hx) y (List.mem_cons_of_mem a hy))
      rw [hrest]

theorem sortEntries_eq_of_perm (lower : String → String) (l₁ l₂ : List (String × Bool))
    (hp : List.Perm l₁ l₂)
    (hnc : ∀ a ∈ l₁, ∀ b ∈ l₁, a.2 = b.2 → lower a.1 = lower b.1 → a = b) :
    sortLe (entryLe lower) l₁ = sortLe (entryLe lower) l₂ := by
  apply sorted_perm_eq (entryLe lower)
  · exact (sortLe_perm (entryLe lower) l₁).trans
      (hp.trans (sortLe_perm (entryLe lower) l₂).symm)
  · exact sortLe_pairwise (entryLe lower) (entryLe_trans lower) (entryLe_total lower) l₁
  · exact sortLe_pairwise (entryLe lower) (entryLe_trans lower) (entryLe_total lower) l₂
  · intro a ha b hb h1 h2
    have ha1 : a ∈ l₁ := (sortLe_perm (entryLe lower) l₁).mem_iff.mp ha
    have hb1 : b ∈ l₁ := (sortLe_perm (entryLe lower) l₁).mem_iff.mp hb
    have hne1 := (entryLe_iff lower a b).mp h1
    have hne2 := (entryLe_iff lower b a).mp h2
    have heq : entryCmp lower a b = .eq := by
      cases hc : entryCmp lower a b with
      | lt =>
        exfalso
        apply hne2
        rw [entryCmp_swap lower a b, hc]
        rfl
      | eq => rfl
      | gt => exact absurd hc hne1
    rcases entryCmp_eq_components lower a b heq with ⟨hgrp, hlow⟩
    exact hnc a ha1 b hb1 hgrp hlow

end Statiker

namespace Statiker

/-! ## C7 -/

set_option maxRecDepth 100000 in
/-- C7 counterexample: the same set of entries enumerated in two
orders renders different HTML when two files' names collide after
lowercasing — the comparator ties them (`A.txt` vs `a.txt`) and the
stable sort keeps the enumeration order, so the links appear in
different orders. The `lower` collaborator is instantiated with
exactly the values `str::to_lowercase` takes on the two names present
in this directory (`A.txt` and `a.txt` both map to `a.txt`). -/
theorem render_listing_tie_counterexample :
    List.Perm [("A.txt", false), ("a.txt", false)] [("a.txt", false), ("A.txt", false)]
    ∧ render_directory_listing (fun s => if s = "A.txt" then "a.txt" else s) id id ""
        [("A.txt", false), ("a.txt", false)]
      ≠ render_directory_listing (fun s => if s = "A.txt" then "a.txt" else s) id id ""
        [("a.txt", false), ("A.txt", false)] := by
  constructor
  · exact List.Perm.swap ("a.txt", false) ("A.txt", false) []
  · decide

/-- C7 (amended): for every case-mapping function `lower` standing for
`str::to_lowercase` (in particular the real full-Unicode one),
`render_directory_listing` is deterministic in the directory contents
provided no two distinct entries of the same group (directory/file)
share the same lowercased name: any two enumerations of such a set of
entries render identical HTML, which lists directories before files,
alphabetically by lowercased name within each group (the produced
order is sorted for the source's comparator and is a permutation of
the enumeration). -/
theorem render_listing_deterministic (lower escT escA : String → String) (rel : String)
    (l₁ l₂ : List (String × Bool))
    (hp : List.Perm l₁ l₂)
    (hnc : ∀ a ∈ l₁, ∀ b ∈ l₁, a.2 = b.2 → lower a.1 = lower b.1 → a = b) :
    render_directory_listing lower escT escA rel l₁
      = render_directory_listing lower escT escA rel l₂
    ∧ List.Perm (sortLe (entryLe lower) l₁) l₁
    ∧ (sortLe (entryLe lower) l₁).Pairwise (fun a b => entryLe lower a b = true) := by
  refine ⟨?_, sortLe_perm (entryLe lower) l₁,
    sortLe_pairwise (entryLe lower) (entryLe_trans lower) (entryLe_total lower) l₁⟩
  have hsort := sortEntries_eq_of_perm lower l₁ l₂ hp hnc
  unfold render_directory_listing
  rw [hsort]

theorem render_listing_deterministic_witness :
    render_directory_listing (fun s => if s = "A" then "a" else s) id id ""
      [("b.txt", false), ("A", true)]
      = render_directory_listing (fun s => if s = "A" then "a" else s) id id ""
        [("A", true), ("b.txt", false)] := by
  exact (render_listing_deterministic (fun s => if s = "A" then "a" else s) id id ""
    [("b.txt", false), ("A", true)] [("A", true), ("b.txt", false)]
    (List.Perm.swap ("A", true) ("b.txt", false) []) (by decide)).1

end Statiker

namespace Statiker

/-! ## Header map lemmas -/

theorem headerLookup_insert (hs : List (String × String)) (k v : String) :
    headerLookup k (headerInsert hs k v) = some v := by
  unfold headerInsert
  induction hs with
  | nil => simp [headerLookup]
  | cons kv t ih =>
    by_cases h : kv.1 = k
    · rw [List.filter_cons_of_neg (by simp [h])]
      exact ih
    · rw [List.filter_cons_of_pos (by simp [h])]
      simpa [headerLookup, h] using ih

theorem headerLookup_insert_ne (hs : List (String × String)) (k k2 v : String)
    (hne : ¬(k2 = k)) :
    headerLookup k (headerInsert hs k2 v) = headerLookup k hs := by
  unfold headerInsert
  induction hs with
  | nil => simp [headerLookup, hne]
  | cons kv t ih =>
    by_cases h : kv.1 = k2
    · rw [List.filter_cons_of_neg (by simp [h])]
      rw [ih]
      have : ¬(kv.1 = k) := by rw [h]; exact hne
      simp [headerLookup, this]
    · rw [List.filter_cons_of_pos (by simp [h])]
      by_cases hk : kv.1 = k
      · simp [headerLookup, hk]
      · simpa [headerLookup, hk] using ih

theorem headerLookup_strip (h : String) (hh : h ∈ hopByHopHeaderNames)
    (hs : List (String × String)) :
    headerLookup h (strip_hop_by_hop hs) = none := by
  unfold strip_hop_by_hop
  induction hs with
  | nil => rfl
  | cons kv t ih =>
    by_cases hk : kv.1 ∈ hopByHopHeaderNames
    · rw [List.filter_cons_of_neg (by simp [hk])]
      exact ih
    · rw [List.filter_cons_of_pos (by simp [hk])]
      have hne : ¬(kv.1 = h) := fun he => hk (he ▸ hh)
      simpa [headerLookup, hne] using ih

theorem applyAddHeaders_append (l₁ l₂ : List (String × String)) (ip : String)
    (hs : List (String × String)) :
    applyAddHeaders (l₁ ++ l₂) ip hs = applyAddHeaders l₂ ip (applyAddHeaders l₁ ip hs) := by
  unfold applyAddHeaders
  rw [List.foldl_append]

theorem applyAddHeaders_step (kv : String × String) (t : List (String × String))
    (ip : String) (hs : List (String × String)) :
    applyAddHeaders (kv :: t) ip hs
      = applyAddHeaders t ip
          (if isValidHeaderValue (substClientIp kv.2 ip) = true
           then headerInsert hs kv.1 (substClientIp kv.2 ip) else hs) := by
  unfold applyAddHeaders
  rw [List.foldl_cons]

theorem applyAddHeaders_lookup_skip (adds : List (String × String)) (ip k : String)
    (hk : k ∉ adds.map Prod.fst) :
    ∀ hs, headerLookup k (applyAddHeaders adds ip hs) = headerLookup k hs := by
  induction adds with
  | nil => intro hs; rfl
  | cons kv t ih =>
    intro hs
    have hk1 : ¬(kv.1 = k) := by
      intro he
      exact hk (by simp [he])
    have hk2 : k ∉ t.map Prod.fst := fun hm => hk (by simp [hm])
    rw [applyAddHeaders_step, ih hk2]
    by_cases hv : isValidHeaderValue (substClientIp kv.2 ip) = true
    · rw [if_pos hv, headerLookup_insert_ne hs k kv.1 _ hk1]
    · rw [if_neg hv]

end Statiker

namespace Statiker

/-! ## C2 -/

/-- C2 counterexample: with `X-Forwarded-For: 203.0.113.5, 10.0.0.1`
present, the value substituted into a configured
`x-real-ip: \x7bclient_ip\x7d` header on the outbound request is the
whole header value, not the first listed address `203.0.113.5`. -/
theorem client_ip_full_xff_counterexample :
    headerLookup "x-real-ip"
      (outboundRequestHeaders
        ⟨"http://up", durationFromSecs 5, [("x-real-ip", "{client_ip}")]⟩
        ⟨[("x-forwarded-for", "203.0.113.5, 10.0.0.1")], none, some "9.9.9.9"⟩)
      = some "203.0.113.5, 10.0.0.1"
    ∧ ("203.0.113.5, 10.0.0.1" : String) ≠ "203.0.113.5" := by
  exact ⟨by decide, by decide⟩

/-- C2 (amended): the client IP substituted for the `\x7bclient_ip\x7d`
placeholder in configured extra headers is the ENTIRE
`X-Forwarded-For` header value when that header is present (not just
its first address); otherwise the transport-level peer address;
otherwise the literal string `unknown`. A configured header whose last
occurrence for name `k` carries template `v` ends up on the outbound
request as `k` mapped to `v` with the placeholder replaced by that
value, whenever the substituted value is a valid header value. -/
theorem client_ip_resolution (req : PRequest) :
    (∀ v, headerLookup "x-forwarded-for" req.headers = some v → resolvedClientIp req = v)
    ∧ (headerLookup "x-forwarded-for" req.headers = none →
        ∀ p, req.peer = some p → resolvedClientIp req = p)
    ∧ (headerLookup "x-forwarded-for" req.headers = none → req.peer = none →
        resolvedClientIp req = "unknown")
    ∧ (∀ (l₁ l₂ : List (String × String)) (k v : String) (hs : List (String × String)),
        k ∉ l₂.map Prod.fst →
        isValidHeaderValue (substClientIp v (resolvedClientIp req)) = true →
        headerLookup k (applyAddHeaders (l₁ ++ (k, v) :: l₂) (resolvedClientIp req) hs)
          = some (substClientIp v (resolvedClientIp req))) := by
  refine ⟨?_, ?_, ?_, ?_⟩
  · intro v hv
    unfold resolvedClientIp client_ip
    rw [hv]
    rfl
  · intro hn p hp
    unfold resolvedClientIp client_ip
    rw [hn, hp]
    rfl
  · intro hn hp
    unfold resolvedClientIp client_ip
    rw [hn, hp]
    rfl
  · intro l₁ l₂ k v hs hk hval
    rw [applyAddHeaders_append, applyAddHeaders_step,
      applyAddHeaders_lookup_skip l₂ _ k hk, if_pos hval, headerLookup_insert]

theorem client_ip_resolution_witness :
    resolvedClientIp ⟨[("x-forwarded-for", "1.2.3.4")], none, none⟩ = "1.2.3.4"
    ∧ headerLookup "x-real-ip"
        (applyAddHeaders [("x-real-ip", "{client_ip}")]
          (resolvedClientIp ⟨[("x-forwarded-for", "1.2.3.4")], none, none⟩) [])
        = some "1.2.3.4" := by
  constructor
  · exact (client_ip_resolution ⟨[("x-forwarded-for", "1.2.3.4")], none, none⟩).1
      "1.2.3.4" (by decide)
  · exact (client_ip_resolution ⟨[("x-forwarded-for", "1.2.3.4")], none, none⟩).2.2.2
      [] [] "x-real-ip" "{client_ip}" [] (by decide) (by decide)

/-! ## C3 -/

/-- C3: none of the seven hop-by-hop header names ever appears in the
outbound proxied request's headers, nor in the headers of the response
`proxy_forward` returns, for any inbound header set and any configured
extra headers (which are applied before the strip) and any upstream
response. -/
theorem hop_by_hop_never_forwarded (h : String) (hh : h ∈ hopByHopHeaderNames) :
    (∀ (ps : ProxyState) (req : PRequest),
      headerLookup h (outboundRequestHeaders ps req) = none)
    ∧ (∀ (uriOk : String → Bool)
        (attempt : Nat → List (String × String) → Option (Option UpstreamResponse))
        (ps : ProxyState) (tail : String) (req : PRequest),
        headerLookup h (proxy_forward uriOk attempt ps tail req).headers = none) := by
  constructor
  · intro ps req
    exact headerLookup_strip h hh _
  · intro uriOk attempt ps tail req
    unfold proxy_forward
    by_cases hu : uriOk (buildUpstreamUri ps.target tail req.query) = true
    · rw [if_pos hu]
      rcases ha : attempt ps.timeout (outboundRequestHeaders ps req) with _ | ou
      · rfl
      · rcases ou with _ | u
        · rfl
        · exact headerLookup_strip h hh _
    · rw [if_neg hu]
      rfl

theorem hop_by_hop_never_forwarded_witness :
    headerLookup "connection"
      (outboundRequestHeaders
        ⟨"http://up", durationFromSecs 5, [("connection", "close")]⟩
        ⟨[("connection", "keep-alive"), ("te", "x"), ("accept", "y")], none, none⟩) = none
    ∧ headerLookup "connection"
        (proxy_forward (fun _ => true)
          (fun _ _ => some (some ⟨200, [("connection", "close"), ("content-type", "t")]⟩))
          ⟨"http://up", durationFromSecs 5, []⟩ "x" ⟨[], none, none⟩).headers = none := by
  exact ⟨(hop_by_hop_never_forwarded "connection" (by decide)).1 _ _,
    (hop_by_hop_never_forwarded "connection" (by decide)).2 _ _ _ _ _⟩

/-! ## C5 -/

/-- C5: the upstream URI is `target ++ "/" ++ tail` with `?query`
appended when present; a malformed URI yields 502; timeout expiry or
transport failure of the single outbound attempt yields 502; the
effective timeout built by `ProxyState::new` is the configured
duration, or 5 seconds when the configured timeout is zero/unset. -/
theorem proxy_forward_error_paths (uriOk : String → Bool)
    (attempt : Nat → List (String × String) → Option (Option UpstreamResponse))
    (ps : ProxyState) (tail : String) (req : PRequest) :
    buildUpstreamUri ps.target tail req.query
      = ps.target ++ "/" ++ tail
        ++ (match req.query with
            | some q => "?" ++ q
            | none => "")
    ∧ (uriOk (buildUpstreamUri ps.target tail req.query) = false →
        proxy_forward uriOk attempt ps tail req = badGatewayResponse)
    ∧ (attempt ps.timeout (outboundRequestHeaders ps req) = none →
        proxy_forward uriOk attempt ps tail req = badGatewayResponse)
    ∧ (attempt ps.timeout (outboundRequestHeaders ps req) = some none →
        proxy_forward uriOk attempt ps tail req = badGatewayResponse)
    ∧ badGatewayResponse.status = 502
    ∧ (∀ (validName : String → Bool) (p : ProxyCfg),
        (ProxyState.new validName p).timeout
          = if p.timeout = 0 then durationFromSecs 5 else p.timeout) := by
  refine ⟨?_, ?_, ?_, ?_, rfl, fun validName p => rfl⟩
  · unfold buildUpstreamUri
    rfl
  · intro hbad
    unfold proxy_forward
    rw [if_neg (by rw [hbad]; exact Bool.false_ne_true)]
  · intro ha
    unfold proxy_forward
    by_cases hu : uriOk (buildUpstreamUri ps.target tail req.query) = true
    · rw [if_pos hu, ha]
    · rw [if_neg hu]
  · intro ha
    unfold proxy_forward
    by_cases hu : uriOk (buildUpstreamUri ps.target tail req.query) = true
    · rw [if_pos hu, ha]
    · rw [if_neg hu]

theorem proxy_forward_error_paths_witness :
    proxy_forward (fun _ => false) (fun _ _ => some (some ⟨200, []⟩))
      ⟨"http://up", durationFromSecs 5, []⟩ "x" ⟨[], none, none⟩ = badGatewayResponse
    ∧ proxy_forward (fun _ => true) (fun _ _ => none)
        ⟨"http://up", durationFromSecs 5, []⟩ "x" ⟨[], none, none⟩ = badGatewayResponse
    ∧ (ProxyState.new (fun _ => true) ⟨"http://up/", 0, []⟩).timeout = durationFromSecs 5 := by
  refine ⟨?_, ?_, rfl⟩
  · exact (proxy_forward_error_paths (fun _ => false) (fun _ _ => some (some ⟨200, []⟩))
      ⟨"http://up", durationFromSecs 5, []⟩ "x" ⟨[], none, none⟩).2.1 rfl
  · exact (proxy_forward_error_paths (fun _ => true) (fun _ _ => none)
      ⟨"http://up", durationFromSecs 5, []⟩ "x" ⟨[], none, none⟩).2.2.1 rfl

end Statiker

namespace Statiker

/-! ## C6 -/

/-- C6: the rate-limit key is the first comma-separated entry of
`x-forwarded-for`, trimmed and parsed, when that parse succeeds; else
the transport peer address; else the `0.0.0.0` sentinel; and when the
limiter denies the key the middleware returns the 429 response without
invoking the downstream stage (the result does not depend on `next`). -/
theorem rate_limit_key_and_short_circuit
    (parseIp : String → Option IpAddr) (headers : List (String × String))
    (peer : Option IpAddr) :
    (∀ s seg rest ip, headerLookup "x-forwarded-for" headers = some s →
        strSegments ',' s = seg :: rest → parseIp (rustTrim seg) = some ip →
        rateLimitKey parseIp headers peer = ip)
    ∧ (∀ s seg rest, headerLookup "x-forwarded-for" headers = some s →
        strSegments ',' s = seg :: rest → parseIp (rustTrim seg) = none →
        rateLimitKey parseIp headers peer
          = (match peer with
             | some p => p
             | none => IpAddr.v4 0 0 0 0))
    ∧ (headerLookup "x-forwarded-for" headers = none → ∀ p, peer = some p →
        rateLimitKey parseIp headers peer = p)
    ∧ (headerLookup "x-forwarded-for" headers = none → peer = none →
        rateLimitKey parseIp headers peer = IpAddr.v4 0 0 0 0)
    ∧ (∀ check : IpAddr → Bool, check (rateLimitKey parseIp headers peer) = false →
        ∀ next₁ next₂ : Unit → HttpResponse,
          rate_limit_mw (some check) parseIp headers peer next₁ = rateLimitedResponse
          ∧ rate_limit_mw (some check) parseIp headers peer next₁
            = rate_limit_mw (some check) parseIp headers peer next₂)
    ∧ rateLimitedResponse.status = 429 := by
  refine ⟨?_, ?_, ?_, ?_, ?_, rfl⟩
  · intro s seg rest ip hh hseg hp
    unfold rateLimitKey
    simp only [hh, Option.some_bind, hseg, hp]
  · intro s seg rest hh hseg hp
    unfold rateLimitKey
    simp only [hh, Option.some_bind, hseg, hp]
  · intro hn p hp
    unfold rateLimitKey
    simp only [hn, Option.none_bind, hp]
  · intro hn hp
    unfold rateLimitKey
    simp only [hn, Option.none_bind, hp]
  · intro check hc next₁ next₂
    constructor
    · simp [rate_limit_mw, hc]
    · simp [rate_limit_mw, hc]

end Statiker

namespace Statiker

theorem rate_limit_key_and_short_circuit_witness :
    rateLimitKey (fun s => if s = "203.0.113.5" then some (.v4 203 0 113 5) else none)
      [("x-forwarded-for", "203.0.113.5, 10.0.0.1")] (some (.v4 10 0 0 9))
      = .v4 203 0 113 5
    ∧ rateLimitKey (fun _ => none) [] (some (.v4 10 0 0 9)) = .v4 10 0 0 9
    ∧ rateLimitKey (fun _ => none) [] none = .v4 0 0 0 0
    ∧ rate_limit_mw (some (fun _ => false)) (fun _ => none) [] none (fun _ => ⟨200, [], []⟩)
        = rateLimitedResponse := by
  refine ⟨?_, ?_, ?_, ?_⟩
  · exact (rate_limit_key_and_short_circuit _ _ _).1 "203.0.113.5, 10.0.0.1" "203.0.113.5"
      [" 10.0.0.1"] (.v4 203 0 113 5) (by decide) (by decide) (by decide)
  · exact (rate_limit_key_and_short_circuit (fun _ => none) []
      (some (.v4 10 0 0 9))).2.2.1 rfl _ rfl
  · exact (rate_limit_key_and_short_circuit (fun _ => none) [] none).2.2.2.1 rfl rfl
  · exact ((rate_limit_key_and_short_circuit (fun _ => none) [] none).2.2.2.2.1
      (fun _ => false) rfl (fun _ => ⟨200, [], []⟩) (fun _ => ⟨200, [], []⟩)).1

/-! ## C8 -/

/-- C8: a route declaring both `serve: static` and a proxy target is
mounted as static only — its entry is the static one, its path appears
in the emitted warnings, and every proxy entry of the built router
comes from a route that did not declare `serve: static` (so no proxy
forwarder is ever installed from a both-route; the mounted mode is a
sum type, so each built route has exactly one mode). -/
theorem build_router_static_wins (validName : String → Bool) (routes : List RouteCfg)
    (r : RouteCfg) (p : ProxyCfg)
    (hr : r ∈ routes) (hs : r.serve = some "static") (hp : r.proxy = some p) :
    routeEntry validName r = some (r.path, RouteMode.static)
    ∧ routeWarns r = true
    ∧ r.path ∈ (build_router validName routes).2
    ∧ (∀ e ∈ (build_router validName routes).1, ∀ q, e.2 = RouteMode.proxy q →
        ∃ r₂ ∈ routes, ¬(r₂.serve = some "static")
          ∧ ∃ pc, r₂.proxy = some pc
          ∧ e = (r₂.path, RouteMode.proxy (ProxyState.new validName pc))) := by
  have hw : routeWarns r = true := by
    simp [routeWarns, hs, hp]
  refine ⟨by simp [routeEntry, hs], hw, ?_, ?_⟩
  · show r.path ∈ (routes.filter (fun r => routeWarns r)).map (fun r => r.path)
    exact List.mem_map.mpr ⟨r, List.mem_filter.mpr ⟨hr, hw⟩, rfl⟩
  · intro e he q heq
    have he2 : e ∈ (if (routes.filterMap (routeEntry validName)).isEmpty
        then [("/", RouteMode.static)] else routes.filterMap (routeEntry validName)) := he
    by_cases hemp : (routes.filterMap (routeEntry validName)).isEmpty = true
    · rw [if_pos hemp] at he2
      rcases List.mem_singleton.mp he2 with rfl
      exact absurd heq.symm (by simp)
    · rw [if_neg hemp] at he2
      rcases List.mem_filterMap.mp he2 with ⟨r₂, hr₂, hre⟩
      by_cases hs₂ : r₂.serve = some "static"
      · rw [routeEntry, if_pos hs₂] at hre
        have he3 : e = (r₂.path, RouteMode.static) := (Option.some.inj hre).symm
        rw [he3] at heq
        exact absurd heq.symm (by simp)
      · rw [routeEntry, if_neg hs₂] at hre
        rcases hp₂ : r₂.proxy with _ | pc
        · rw [hp₂] at hre
          exact Option.noConfusion hre
        · rw [hp₂] at hre
          exact ⟨r₂, hr₂, hs₂, pc, hp₂, (Option.some.inj hre).symm⟩

theorem build_router_static_wins_witness :
    routeEntry (fun _ => true) ⟨"/app", some "static", some ⟨"http://u", 0, []⟩⟩
      = some ("/app", RouteMode.static)
    ∧ "/app" ∈ (build_router (fun _ => true)
        [⟨"/app", some "static", some ⟨"http://u", 0, []⟩⟩]).2 := by
  have h := build_router_static_wins (fun _ => true)
    [⟨"/app", some "static", some ⟨"http://u", 0, []⟩⟩]
    ⟨"/app", some "static", some ⟨"http://u", 0, []⟩⟩ ⟨"http://u", 0, []⟩
    (List.mem_singleton.mpr rfl) rfl rfl
  exact ⟨h.1, h.2.2.1⟩

/-! ## C9 -/

/-- C9: with asset caching enabled, the middleware sets
`cache-control: public, max-age=N, immutable` (N the configured
max-age in whole seconds) on the response for every request path whose
extension is in the asset set — `/style.css` is one — and returns the
downstream response unchanged for non-asset paths such as
`/index.html`. -/
theorem cache_control_injection (cache : CacheCfg) (path : String) (res : HttpResponse)
    (he : cache.enabled = true) :
    (is_asset_path path = true →
      headerLookup "cache-control" (cache_control_mw cache path res).headers
        = some ("public, max-age=" ++ toString (cache.max_age / 1000000000) ++ ", immutable"))
    ∧ (is_asset_path path = false → cache_control_mw cache path res = res)
    ∧ is_asset_path "/style.css" = true
    ∧ is_asset_path "/index.html" = false := by
  refine ⟨?_, ?_, by decide, by decide⟩
  · intro ha
    unfold cache_control_mw
    rw [if_pos (by rw [he, ha]; rfl)]
    exact headerLookup_insert _ _ _
  · intro ha
    unfold cache_control_mw
    rw [if_neg (by rw [ha]; simp)]

theorem cache_control_injection_witness :
    headerLookup "cache-control"
      (cache_control_mw ⟨true, 3600000000000⟩ "/style.css"
        ⟨200, [("cache-control", "no-store")], []⟩).headers
      = some "public, max-age=3600, immutable"
    ∧ cache_control_mw ⟨true, 3600000000000⟩ "/index.html" ⟨200, [], []⟩ = ⟨200, [], []⟩ := by
  constructor
  · exact ((cache_control_injection ⟨true, 3600000000000⟩ "/style.css"
      ⟨200, [("cache-control", "no-store")], []⟩ rfl).1 (by decide)).trans (by decide)
  · exact (cache_control_injection ⟨true, 3600000000000⟩ "/index.html"
      ⟨200, [], []⟩ rfl).2.1 (by decide)

end Statiker
